import Mathlib

/-
Verification of the AudioBuffer (KeyFinder::AudioData) component of
libKeyFinder, shallow-embedded from src/audiodata.cpp.

Modelling conventions:
- C++ float sample values are modelled by the type Val: a finite value
  carries an exact rational; the two non-finite classes (NaN, infinity)
  are separate constructors.  Rational arithmetic models float arithmetic
  exactly on the dyadic values used by the specification's scenarios;
  rounding and overflow of IEEE arithmetic are not modelled.
- unsigned int fields are modelled by Nat.
- A method that can throw is modelled as a function returning
  (Except Err alpha) paired with the AudioData the object is left in when
  the exception escapes (the C++ object survives a throw, possibly in a
  mutated state, so the error path must carry the resulting state).
- The iterator-based while loops of reduceToMono and downsample are
  modelled in-place on the sample list, with an explicit fuel parameter,
  because downsample's loop genuinely fails to terminate for factor = 0;
  the callers pass ample fuel and the termination theorems show the fuel
  is irrelevant (sufficient for factor >= 1, never sufficient for
  factor = 0 on a non-empty buffer).
- Dereferencing an out-of-range deque iterator is undefined behaviour in
  C++; the model reads with List.getD and default Val.nan (a poison
  value) and writes with List.set (a no-op out of range).
-/

namespace KeyFinder

/-- Model of a C++ float sample value: a finite exact rational, NaN, or an
infinity.  boost::math::isfinite is true exactly on the finite constructor. -/
inductive Val where
  | finite (q : ℚ)
  | nan
  | inf
deriving DecidableEq, Repr

/-- boost::math::isfinite on the modelled float. -/
def Val.isFinite : Val → Bool
  | .finite _ => true
  | .nan => false
  | .inf => false

/-- Float addition on the model: NaN absorbs, infinity absorbs among
non-NaN values, finite values add exactly (overflow not modelled). -/
def Val.add : Val → Val → Val
  | .nan, _ => .nan
  | _, .nan => .nan
  | .inf, _ => .inf
  | _, .inf => .inf
  | .finite a, .finite b => .finite (a + b)

/-- Float division by an unsigned-int divisor, as used by the averaging
loops.  The divisors used by the code paths proved below are positive;
division by zero is mapped to NaN. -/
def Val.divNat : Val → Nat → Val
  | _, 0 => .nan
  | .nan, _ => .nan
  | .inf, _ => .inf
  | .finite a, n => .finite (a / (n : ℚ))

/-- Error taxonomy of spec section 7; each constructor corresponds to the
message class of a throw site in src/audiodata.cpp. -/
inductive Err where
  | invalidConfiguration
  | incompatibleMerge
  | incompatibleChannelLayout
  | outOfBounds
  | nonFiniteValue
deriving DecidableEq, Repr

/-- State of a KeyFinder::AudioData object: the interleaved sample deque,
the two scalar configuration fields, and the two streaming cursors
(deque iterators in C++, modelled as offsets into samples). -/
structure AudioData where
  samples : List Val
  channels : Nat
  frameRate : Nat
  readIterator : Nat
  writeIterator : Nat
deriving DecidableEq, Repr

/-- AudioData::AudioData(): samples empty, channels = 0, frameRate = 0
(default-constructed iterators modelled as offset 0). -/
def AudioData.init : AudioData :=
  { samples := [], channels := 0, frameRate := 0, readIterator := 0, writeIterator := 0 }

/-- AudioData::getChannels. -/
def getChannels (a : AudioData) : Nat := a.channels

/-- AudioData::setChannels: throws if newChannels < 1, else assigns. -/
def setChannels (newChannels : Nat) (a : AudioData) : Except Err Unit × AudioData :=
  if newChannels < 1 then (.error .invalidConfiguration, a)
  else (.ok (), { a with channels := newChannels })

/-- AudioData::getFrameRate. -/
def getFrameRate (a : AudioData) : Nat := a.frameRate

/-- AudioData::setFrameRate: throws if newFrameRate < 1, else assigns. -/
def setFrameRate (newFrameRate : Nat) (a : AudioData) : Except Err Unit × AudioData :=
  if newFrameRate < 1 then (.error .invalidConfiguration, a)
  else (.ok (), { a with frameRate := newFrameRate })

/-- AudioData::append: adopt configuration when fully unconfigured, then
check channel and frame-rate compatibility, then concatenate that's
samples after the receiver's.  The adoption mutates the receiver before
the checks, so the error state carries the adopted configuration (the
checks cannot fail after an adoption, since they compare against the
just-adopted values). -/
def append (that : AudioData) (a : AudioData) : Except Err Unit × AudioData :=
  let a1 := if a.channels = 0 ∧ a.frameRate = 0 then
    { a with channels := that.channels, frameRate := that.frameRate } else a
  if that.channels ≠ a1.channels then (.error .incompatibleMerge, a1)
  else if that.frameRate ≠ a1.frameRate then (.error .incompatibleMerge, a1)
  else (.ok (), { a1 with samples := a1.samples ++ that.samples })

/-- AudioData::prepend: as append, but that's samples are inserted before
the receiver's. -/
def prepend (that : AudioData) (a : AudioData) : Except Err Unit × AudioData :=
  let a1 := if a.channels = 0 ∧ a.frameRate = 0 then
    { a with channels := that.channels, frameRate := that.frameRate } else a
  if that.channels ≠ a1.channels then (.error .incompatibleMerge, a1)
  else if that.frameRate ≠ a1.frameRate then (.error .incompatibleMerge, a1)
  else (.ok (), { a1 with samples := that.samples ++ a1.samples })

/-- AudioData::getSampleCount: samples.size(). -/
def getSampleCount (a : AudioData) : Nat := a.samples.length

/-- AudioData::getFrameCount: throws if channels < 1, else
sampleCount / channels (integer division). -/
def getFrameCount (a : AudioData) : Except Err Nat :=
  if a.channels < 1 then .error .invalidConfiguration
  else .ok (a.samples.length / a.channels)

/-- AudioData::getSample: bounds check then read. -/
def getSample (index : Nat) (a : AudioData) : Except Err Val :=
  if index ≥ a.samples.length then .error .outOfBounds
  else .ok (a.samples.getD index Val.nan)

/-- AudioData::getSampleByFrame: frame bound (via getFrameCount, which
itself throws when channels < 1), then channel bound, then delegate to
getSample at frame * channels + channel. -/
def getSampleByFrame (frame channel : Nat) (a : AudioData) : Except Err Val :=
  match getFrameCount a with
  | .error e => .error e
  | .ok fc =>
    if frame ≥ fc then .error .outOfBounds
    else if channel ≥ a.channels then .error .outOfBounds
    else getSample (frame * a.channels + channel) a

/-- AudioData::setSample: bounds check, then boost::math::isfinite check,
then write. -/
def setSample (index : Nat) (value : Val) (a : AudioData) : Except Err Unit × AudioData :=
  if index ≥ a.samples.length then (.error .outOfBounds, a)
  else if ¬ value.isFinite then (.error .nonFiniteValue, a)
  else (.ok (), { a with samples := a.samples.set index value })

/-- AudioData::setSampleByFrame: frame bound (via getFrameCount), channel
bound, then delegate to setSample. -/
def setSampleByFrame (frame channel : Nat) (value : Val) (a : AudioData) :
    Except Err Unit × AudioData :=
  match getFrameCount a with
  | .error e => (.error e, a)
  | .ok fc =>
    if frame ≥ fc then (.error .outOfBounds, a)
    else if channel ≥ a.channels then (.error .outOfBounds, a)
    else setSample (frame * a.channels + channel) value a

/-- AudioData::addToSampleCount: samples.resize(count + n, 0.0), i.e.
append n zero samples. -/
def addToSampleCount (newSamples : Nat) (a : AudioData) : AudioData :=
  { a with samples := a.samples ++ List.replicate newSamples (Val.finite 0) }

/-- AudioData::addToFrameCount: throws if channels < 1, else grows by
newFrames * channels zero samples. -/
def addToFrameCount (newFrames : Nat) (a : AudioData) : Except Err Unit × AudioData :=
  if a.channels < 1 then (.error .invalidConfiguration, a)
  else (.ok (), addToSampleCount (newFrames * a.channels) a)

/-- deque::resize(newLen): truncate to newLen, or pad with
value-initialized floats (0.0) up to newLen. -/
def resizeList (newLen : Nat) (l : List Val) : List Val :=
  if newLen ≤ l.length then l.take newLen
  else l ++ List.replicate (newLen - l.length) (Val.finite 0)

/-- ceil((float)n / (float)k) of the downsample resize, exact for the Nat
ranges involved. -/
def ceilDivNat (n k : Nat) : Nat := (n + k - 1) / k

/-- Inner for-loop of AudioData::reduceToMono: runs channels times, each
iteration reads *readAt into the sum and advances readAt by one (no
bounds check: an out-of-range read is UB, modelled as reading the poison
value Val.nan). -/
def rmInner (cur : List Val) : Nat → Val → Nat → Val × Nat
  | 0, sum, readAt => (sum, readAt)
  | c + 1, sum, readAt =>
    rmInner cur c (Val.add sum (cur.getD readAt Val.nan)) (readAt + 1)

/-- While loop of AudioData::reduceToMono, in place on the sample deque:
while readAt < end, sum one frame, write sum / channels at writeAt,
advance writeAt.  Fuel counts loop iterations; callers pass ample fuel. -/
def rmLoop (channels : Nat) : Nat → Nat → Nat → List Val → Option (List Val)
  | fuel, readAt, writeAt, cur =>
    if readAt < cur.length then
      match fuel with
      | 0 => none
      | fuel + 1 =>
        let step := rmInner cur channels (Val.finite 0) readAt
        rmLoop channels fuel step.2 (writeAt + 1)
          (cur.set writeAt (Val.divNat step.1 channels))
    else some cur

/-- AudioData::reduceToMono: no-op when channels < 2; otherwise run the
averaging loop, resize to sampleCount / channels, set channels = 1.
Returns none only on fuel exhaustion, which the termination lemmas rule
out for channels >= 2. -/
def reduceToMono (a : AudioData) : Option AudioData :=
  if a.channels < 2 then some a
  else
    match rmLoop a.channels (a.samples.length + 1) 0 0 a.samples with
    | none => none
    | some cur =>
      some { a with samples := resizeList (cur.length / a.channels) cur, channels := 1 }

/-- Inner for-loop of AudioData::downsample (shortcut = false): runs
factor times; each iteration conditionally reads *readAt into mean and
advances readAt (guarded by readAt < end), and then unconditionally
divides mean by factor — the division sits inside the loop in the
source (audiodata.cpp line 175). -/
def dsInnerGo (factor : Nat) (cur : List Val) : Nat → Val → Nat → Val × Nat
  | 0, mean, readAt => (mean, readAt)
  | s + 1, mean, readAt =>
    let step : Val × Nat :=
      if readAt < cur.length then (Val.add mean (cur.getD readAt Val.nan), readAt + 1)
      else (mean, readAt)
    dsInnerGo factor cur s (Val.divNat step.1 factor) step.2

/-- While loop of AudioData::downsample, in place on the sample deque:
while readAt < end, compute mean (stride read for shortcut, the
per-iteration-divided accumulation otherwise), write it at writeAt,
advance writeAt.  Fuel counts loop iterations; for factor = 0 the read
position never advances and no fuel suffices. -/
def dsLoop (factor : Nat) (shortcut : Bool) : Nat → Nat → Nat → List Val → Option (List Val)
  | fuel, readAt, writeAt, cur =>
    if readAt < cur.length then
      match fuel with
      | 0 => none
      | fuel + 1 =>
        let step : Val × Nat :=
          if shortcut then (cur.getD readAt Val.nan, readAt + factor)
          else dsInnerGo factor cur factor (Val.finite 0) readAt
        dsLoop factor shortcut fuel step.2 (writeAt + 1) (cur.set writeAt step.1)
    else some cur

/-- AudioData::downsample: return early when factor = 1; throw when
channels > 1; run the decimation loop; resize to
ceil(sampleCount / factor); finally setFrameRate(frameRate / factor),
which throws InvalidConfiguration when frameRate / factor = 0 — after
the samples have already been mutated.  The outer Option is none exactly
when the loop diverges (factor = 0 on a non-empty buffer). -/
def downsample (factor : Nat) (shortcut : Bool) (a : AudioData) :
    Option (Except Err Unit × AudioData) :=
  if factor = 1 then some (.ok (), a)
  else if a.channels > 1 then some (.error .incompatibleChannelLayout, a)
  else
    match dsLoop factor shortcut (a.samples.length + 1) 0 0 a.samples with
    | none => none
    | some cur =>
      let a1 := { a with samples := resizeList (ceilDivNat cur.length factor) cur }
      some (match setFrameRate (a.frameRate / factor) a1 with
            | (.error e, a2) => (.error e, a2)
            | (.ok _, a2) => (.ok (), a2))

/-- AudioData::discardFramesFromFront: the bound check calls
getFrameCount (throwing when channels < 1); then erase the first
n * channels samples. -/
def discardFramesFromFront (discardFrameCount : Nat) (a : AudioData) :
    Except Err Unit × AudioData :=
  match getFrameCount a with
  | .error e => (.error e, a)
  | .ok fc =>
    if discardFrameCount > fc then (.error .outOfBounds, a)
    else (.ok (), { a with samples := a.samples.drop (discardFrameCount * a.channels) })

/-- Copy loop of AudioData::sliceSamplesFromBack: while readAt < src end,
copy *readAt to dst at writeAt and advance both.  Fuel counts
iterations; callers pass ample fuel (the loop always terminates in the
source since readAt advances by one each iteration). -/
def sliceCopyLoop (src : List Val) : Nat → Nat → Nat → List Val → List Val
  | fuel, readAt, writeAt, dst =>
    if readAt < src.length then
      match fuel with
      | 0 => dst
      | fuel + 1 =>
        sliceCopyLoop src fuel (readAt + 1) (writeAt + 1)
          (dst.set writeAt (src.getD readAt Val.nan))
    else dst

/-- AudioData::sliceSamplesFromBack: bound check; build the new buffer
(channels copied unchecked, setFrameRate on the new buffer — throwing
InvalidConfiguration when the receiver's frameRate is 0, before any
mutation of the receiver — then grow by n zeros and copy the last n
samples); finally shrink the receiver by n from the tail.  The ok
payload is the freshly allocated buffer. -/
def sliceSamplesFromBack (sliceSampleCount : Nat) (a : AudioData) :
    Except Err AudioData × AudioData :=
  if sliceSampleCount > a.samples.length then (.error .outOfBounds, a)
  else if a.frameRate < 1 then (.error .invalidConfiguration, a)
  else
    let dst := List.replicate sliceSampleCount (Val.finite 0)
    let copied := sliceCopyLoop a.samples (sliceSampleCount + 1)
      (a.samples.length - sliceSampleCount) 0 dst
    let that : AudioData :=
      { samples := copied, channels := a.channels, frameRate := a.frameRate,
        readIterator := 0, writeIterator := 0 }
    (.ok that,
     { a with samples := resizeList (a.samples.length - sliceSampleCount) a.samples })

/-- AudioData::resetIterators. -/
def resetIterators (a : AudioData) : AudioData :=
  { a with readIterator := 0, writeIterator := 0 }

/-- AudioData::readIteratorWithinUpperBound. -/
def readIteratorWithinUpperBound (a : AudioData) : Bool :=
  a.readIterator < a.samples.length

/-- AudioData::writeIteratorWithinUpperBound. -/
def writeIteratorWithinUpperBound (a : AudioData) : Bool :=
  a.writeIterator < a.samples.length

/-- AudioData::advanceReadIterator (no bounds check). -/
def advanceReadIterator (n : Nat) (a : AudioData) : AudioData :=
  { a with readIterator := a.readIterator + n }

/-- AudioData::advanceWriteIterator (no bounds check). -/
def advanceWriteIterator (n : Nat) (a : AudioData) : AudioData :=
  { a with writeIterator := a.writeIterator + n }

/-- AudioData::getSampleAtReadIterator: unchecked read at the cursor. -/
def getSampleAtReadIterator (a : AudioData) : Val :=
  a.samples.getD a.readIterator Val.nan

/-- AudioData::setSampleAtWriteIterator: unchecked write at the cursor —
no bounds check and no finiteness check. -/
def setSampleAtWriteIterator (value : Val) (a : AudioData) : AudioData :=
  { a with samples := a.samples.set a.writeIterator value }

/-- All stored samples are finite. -/
def allFinite (l : List Val) : Prop := ∀ v ∈ l, v.isFinite = true

/-- The AudioData states reachable through the public API, starting from
the default constructor: every mutating operation's resulting object
state (both on success and after an escaped exception), plus the buffer
returned by sliceSamplesFromBack. -/
inductive Reach : AudioData → Prop where
  | init : Reach AudioData.init
  | ofSetChannels {a} (n) : Reach a → Reach (setChannels n a).2
  | ofSetFrameRate {a} (n) : Reach a → Reach (setFrameRate n a).2
  | ofAppend {a b} : Reach a → Reach b → Reach (append b a).2
  | ofPrepend {a b} : Reach a → Reach b → Reach (prepend b a).2
  | ofSetSample {a} (i v) : Reach a → Reach (setSample i v a).2
  | ofSetSampleByFrame {a} (f c v) : Reach a → Reach (setSampleByFrame f c v a).2
  | ofAddToSampleCount {a} (n) : Reach a → Reach (addToSampleCount n a)
  | ofAddToFrameCount {a} (n) : Reach a → Reach (addToFrameCount n a).2
  | ofReduceToMono {a a'} : Reach a → reduceToMono a = some a' → Reach a'
  | ofDownsample {a r} (f s) : Reach a → downsample f s a = some r → Reach r.2
  | ofDiscard {a} (n) : Reach a → Reach (discardFramesFromFront n a).2
  | ofSliceReceiver {a} (n) : Reach a → Reach (sliceSamplesFromBack n a).2
  | ofSliceResult {a n b} : Reach a → (sliceSamplesFromBack n a).1 = .ok b → Reach b
  | ofResetIterators {a} : Reach a → Reach (resetIterators a)
  | ofAdvanceRead {a} (n) : Reach a → Reach (advanceReadIterator n a)
  | ofAdvanceWrite {a} (n) : Reach a → Reach (advanceWriteIterator n a)
  | ofSetAtWrite {a} (v) : Reach a → Reach (setSampleAtWriteIterator v a)

/-- Shorthand for a buffer literal with finite samples and cursors at 0. -/
def mkBuf (l : List ℚ) (c r : Nat) : AudioData :=
  { samples := l.map Val.finite, channels := c, frameRate := r,
    readIterator := 0, writeIterator := 0 }

/-- Specification-side description of one reduceToMono pass over a stereo
sample list: the mean of each consecutive pair, written with the exact
operations the loop performs (accumulate from float 0.0, one division by
the channel count 2). -/
def pairMeans : List Val → List Val
  | x :: y :: rest =>
    Val.divNat (Val.add (Val.add (Val.finite 0) x) y) 2 :: pairMeans rest
  | _ => []

/-- Adding float zero on the left is the identity. -/
theorem Val.zero_add (v : Val) : Val.add (Val.finite 0) v = v := by
  cases v <;> simp [Val.add]

/-- pairMeans halves the length (rounding down). -/
theorem pairMeans_length : ∀ l : List Val, (pairMeans l).length = l.length / 2
  | [] => rfl
  | [x] => by simp [pairMeans]
  | _ :: _ :: rest => by
    simp only [pairMeans, List.length_cons, pairMeans_length rest]
    omega

/-- Element i of pairMeans is the recorded combination of elements 2i and
2i+1 of the input. -/
theorem pairMeans_getD : ∀ (l : List Val) (i : Nat), i < l.length / 2 →
    (pairMeans l).getD i Val.nan =
      Val.divNat (Val.add (l.getD (2 * i) Val.nan) (l.getD (2 * i + 1) Val.nan)) 2
  | [], i, h => by simp at h
  | [x], i, h => by
    simp only [List.length_cons, List.length_nil] at h
    omega
  | x :: y :: rest, 0, _ => by
    simp [pairMeans, Val.zero_add]
  | x :: y :: rest, i + 1, h => by
    have hi : i < rest.length / 2 := by
      simp only [List.length_cons] at h
      omega
    have hrec := pairMeans_getD rest i hi
    have h1 : 2 * (i + 1) = (2 * i + 1) + 1 := by ring
    have h2 : 2 * (i + 1) + 1 = ((2 * i + 1) + 1) + 1 := by ring
    simp only [pairMeans, List.getD_cons_succ, hrec, h1, h2]

/-- The read position never moves backwards across the inner averaging
loop. -/
theorem dsInnerGo_le (factor : Nat) (cur : List Val) :
    ∀ s mean readAt, readAt ≤ (dsInnerGo factor cur s mean readAt).2 := by
  intro s
  induction s with
  | zero => intro mean readAt; simp [dsInnerGo]
  | succ t ih =>
    intro mean readAt
    unfold dsInnerGo
    by_cases h : readAt < cur.length
    · simp only [h, if_true]
      exact le_trans (Nat.le_succ readAt) (ih _ _)
    · simp only [h, if_false]
      exact ih _ _

/-- With at least one iteration and the read position in range, the inner
averaging loop advances the read position. -/
theorem dsInnerGo_advance (factor : Nat) (cur : List Val) (s : Nat) (mean : Val)
    (readAt : Nat) (hs : 1 ≤ s) (h : readAt < cur.length) :
    readAt + 1 ≤ (dsInnerGo factor cur s mean readAt).2 := by
  obtain ⟨t, rfl⟩ : ∃ t, s = t + 1 := ⟨s - 1, by omega⟩
  unfold dsInnerGo
  simp only [h, if_true]
  exact dsInnerGo_le factor cur t _ (readAt + 1)

/-- The decimation loop preserves the length of the sample storage. -/
theorem dsLoop_length (factor : Nat) (shortcut : Bool) :
    ∀ fuel readAt writeAt cur out,
      dsLoop factor shortcut fuel readAt writeAt cur = some out →
      out.length = cur.length := by
  intro fuel
  induction fuel with
  | zero =>
    intro readAt writeAt cur out h
    unfold dsLoop at h
    by_cases hc : readAt < cur.length
    · simp [hc] at h
    · simp only [hc, if_false, Option.some.injEq] at h
      rw [h]
  | succ t ih =>
    intro readAt writeAt cur out h
    unfold dsLoop at h
    by_cases hc : readAt < cur.length
    · simp only [hc, if_true] at h
      have := ih _ _ _ _ h
      simpa using this
    · simp only [hc, if_false, Option.some.injEq] at h
      rw [h]

/-- For factor >= 1 the decimation loop terminates: fuel covering the
distance to the end of storage yields a result. -/
theorem dsLoop_isSome (factor : Nat) (shortcut : Bool) (hf : 1 ≤ factor) :
    ∀ fuel readAt writeAt cur, cur.length ≤ fuel + readAt →
      (dsLoop factor shortcut fuel readAt writeAt cur).isSome := by
  intro fuel
  induction fuel with
  | zero =>
    intro readAt writeAt cur hlen
    unfold dsLoop
    rw [if_neg (by omega)]
    simp
  | succ t ih =>
    intro readAt writeAt cur hlen
    unfold dsLoop
    by_cases hc : readAt < cur.length
    · simp only [hc, if_true]
      have hadv : readAt + 1 ≤
          (if shortcut then (cur.getD readAt Val.nan, readAt + factor)
           else dsInnerGo factor cur factor (Val.finite 0) readAt).2 := by
        by_cases hs : shortcut
        · simp only [hs, if_true]; omega
        · simp only [hs, if_false]
          exact dsInnerGo_advance factor cur factor _ readAt hf hc
      apply ih
      simp only [List.length_set]
      omega
    · simp [hc]

/-- For factor = 0 with the read position strictly inside storage, the
decimation loop never terminates: it returns none at every fuel, because
neither branch advances the read position. -/
theorem dsLoop_zero_none (shortcut : Bool) :
    ∀ fuel readAt writeAt cur, readAt < cur.length →
      dsLoop 0 shortcut fuel readAt writeAt cur = none := by
  intro fuel
  induction fuel with
  | zero =>
    intro readAt writeAt cur hc
    unfold dsLoop
    simp [hc]
  | succ t ih =>
    intro readAt writeAt cur hc
    unfold dsLoop
    simp only [hc, if_true]
    have hstep : (if shortcut then (cur.getD readAt Val.nan, readAt + 0)
        else dsInnerGo 0 cur 0 (Val.finite 0) readAt).2 = readAt := by
      by_cases hs : shortcut <;> simp [hs, dsInnerGo]
    rw [hstep]
    exact ih readAt (writeAt + 1) _ (by simpa using hc)

/-- resize always yields the requested length. -/
theorem resizeList_length (newLen : Nat) (l : List Val) :
    (resizeList newLen l).length = newLen := by
  unfold resizeList
  by_cases h : newLen ≤ l.length
  · simp [h]
  · simp [h]
    omega

/-- C9: downsample terminates for every buffer when factor >= 1; for
factor = 0 on a monophonic, non-empty buffer, neither decimation branch
advances the read position, so the loop returns none at every fuel and
downsample diverges. -/
theorem c9_downsample_termination (a : AudioData) (factor : Nat) (shortcut : Bool) :
    (1 ≤ factor → (downsample factor shortcut a).isSome) ∧
    (a.channels ≤ 1 → a.samples ≠ [] →
      downsample 0 shortcut a = none ∧
      ∀ fuel readAt writeAt, readAt < a.samples.length →
        dsLoop 0 shortcut fuel readAt writeAt a.samples = none) := by
  constructor
  · intro hf
    unfold downsample
    by_cases h1 : factor = 1
    · simp [h1]
    · rw [if_neg h1]
      by_cases h2 : a.channels > 1
      · simp [h2]
      · rw [if_neg h2]
        have hs := dsLoop_isSome factor shortcut hf (a.samples.length + 1) 0 0
          a.samples (by omega)
        obtain ⟨cur, hcur⟩ := Option.isSome_iff_exists.mp hs
        rw [hcur]
        simp only [Option.isSome_some]
  · intro hch hne
    have hlen : 0 < a.samples.length := List.length_pos.mpr hne
    have hloop : ∀ fuel readAt writeAt, readAt < a.samples.length →
        dsLoop 0 shortcut fuel readAt writeAt a.samples = none :=
      fun fuel readAt writeAt h => dsLoop_zero_none shortcut fuel readAt writeAt _ h
    refine ⟨?_, hloop⟩
    unfold downsample
    rw [if_neg (by omega), if_neg (by omega)]
    rw [hloop _ 0 0 hlen]

/-- Witness for c9_downsample_termination at concrete buffers. -/
theorem c9_downsample_termination_witness :
    (downsample 2 true (mkBuf [1, 2] 1 4)).isSome ∧
    downsample 0 true (mkBuf [1, 2] 1 4) = none :=
  ⟨(c9_downsample_termination (mkBuf [1, 2] 1 4) 2 true).1 (by decide),
   ((c9_downsample_termination (mkBuf [1, 2] 1 4) 0 true).2 (by decide)
     (by simp [mkBuf])).1⟩

/-- getD past a left append block indexes into the right block. -/
theorem getD_append_add (l₁ l₂ : List Val) (k : Nat) (d : Val) :
    (l₁ ++ l₂).getD (l₁.length + k) d = l₂.getD k d := by
  unfold List.getD
  rw [List.get?_eq_getElem?, List.getElem?_append_right (Nat.le_add_right _ _)]
  rw [Nat.add_sub_cancel_left, ← List.get?_eq_getElem?]

/-- Reading one stereo frame with the reduceToMono inner loop: the sum of
the two elements at the read position, advancing by two. -/
theorem rmInner_two (cur : List Val) (r : Nat) :
    rmInner cur 2 (Val.finite 0) r =
      (Val.add (Val.add (Val.finite 0) (cur.getD r Val.nan))
        (cur.getD (r + 1) Val.nan), r + 1 + 1) := by
  simp [rmInner]

/-- Overwriting the head of the already-read region: uniform description
of one in-place write of the reduceToMono loop. -/
theorem set_zero_stale (stale rest' : List Val) (x y v : Val) :
    (stale ++ x :: y :: rest').set 0 v = v :: ((stale ++ [x, y]).tail ++ rest') := by
  cases stale with
  | nil => rfl
  | cons s ss => simp

/-- Invariant of the reduceToMono loop on a stereo buffer: with ms already
computed means, stale a same-length block of already-read input, and
rest the unread input of even length, the loop computes the pair means
of rest after ms, followed by leftover read input. -/
theorem rmLoop_two : ∀ (fuel : Nat) (ms stale rest : List Val),
    stale.length = ms.length → 2 ∣ rest.length → rest.length ≤ 2 * fuel →
    ∃ junk, rmLoop 2 fuel (2 * ms.length) ms.length (ms ++ (stale ++ rest)) =
        some (ms ++ (pairMeans rest ++ junk)) ∧
      junk.length = ms.length + rest.length / 2 := by
  intro fuel
  induction fuel with
  | zero =>
    intro ms stale rest hs hdvd hle
    have hrest : rest = [] := List.eq_nil_of_length_eq_zero (by omega)
    subst hrest
    refine ⟨stale, ?_, by simp [hs]⟩
    unfold rmLoop
    rw [if_neg (by simp [hs]; omega)]
    simp [pairMeans]
  | succ t ih =>
    intro ms stale rest hs hdvd hle
    match rest with
    | [] =>
      refine ⟨stale, ?_, by simp [hs]⟩
      unfold rmLoop
      rw [if_neg (by simp [hs]; omega)]
      simp [pairMeans]
    | [x] =>
      simp only [List.length_cons, List.length_nil] at hdvd
      omega
    | x :: y :: rest' =>
      unfold rmLoop
      rw [if_pos (by simp [hs]; omega)]
      have hql : (ms ++ stale).length = 2 * ms.length := by
        simp [hs]; omega
      have hx : (ms ++ (stale ++ x :: y :: rest')).getD (2 * ms.length) Val.nan = x := by
        rw [← List.append_assoc, ← hql]
        simpa using getD_append_add (ms ++ stale) (x :: y :: rest') 0 Val.nan
      have hy : (ms ++ (stale ++ x :: y :: rest')).getD (2 * ms.length + 1) Val.nan = y := by
        rw [← List.append_assoc, ← hql]
        simpa using getD_append_add (ms ++ stale) (x :: y :: rest') 1 Val.nan
      rw [rmInner_two, hx, hy]
      have hset : (ms ++ (stale ++ x :: y :: rest')).set ms.length
          (Val.divNat (Val.add (Val.add (Val.finite 0) x) y) 2) =
          (ms ++ [Val.divNat (Val.add (Val.add (Val.finite 0) x) y) 2]) ++
            ((stale ++ [x, y]).tail ++ rest') := by
        have h0 : (ms ++ (stale ++ x :: y :: rest')).set ms.length
            (Val.divNat (Val.add (Val.add (Val.finite 0) x) y) 2) =
            ms ++ ((stale ++ x :: y :: rest').set 0
              (Val.divNat (Val.add (Val.add (Val.finite 0) x) y) 2)) := by
          simp [List.set_append]
        rw [h0, set_zero_stale]
        simp
      simp only []
      rw [hset]
      obtain ⟨junk, hj, hjl⟩ := ih
        (ms ++ [Val.divNat (Val.add (Val.add (Val.finite 0) x) y) 2])
        ((stale ++ [x, y]).tail) rest'
        (by simp [List.length_tail, hs])
        (by simp only [List.length_cons] at hdvd ⊢; omega)
        (by simp only [List.length_cons] at hle ⊢; omega)
      simp only [List.length_append, List.length_cons, List.length_nil,
        Nat.add_zero] at hj hjl
      refine ⟨junk, ?_, ?_⟩
      · rw [show 2 * ms.length + 1 + 1 = 2 * (ms.length + 1) from by ring]
        rw [show ms ++ (pairMeans (x :: y :: rest') ++ junk) =
          (ms ++ [Val.divNat (Val.add (Val.add (Val.finite 0) x) y) 2]) ++
            (pairMeans rest' ++ junk) from by simp [pairMeans]]
        exact hj
      · simp only [List.length_cons]
        omega

/-- C6: reduceToMono on a buffer with channels <= 1 leaves the buffer
unchanged; on a stereo buffer whose sample count is a whole number of
frames it replaces storage with one sample per frame — the mean
(a + b) / 2 of that frame's two interleaved values, frames in order —
shrinks storage to the frame count, and sets channels to 1 (frameRate
untouched). -/
theorem c6_reduceToMono (a : AudioData) :
    (a.channels ≤ 1 → reduceToMono a = some a) ∧
    (a.channels = 2 → 2 ∣ a.samples.length →
      ∃ a', reduceToMono a = some a' ∧ a'.channels = 1 ∧
        a'.frameRate = a.frameRate ∧
        a'.samples.length = a.samples.length / 2 ∧
        ∀ i, i < a.samples.length / 2 →
          a'.samples.getD i Val.nan =
            Val.divNat (Val.add (a.samples.getD (2 * i) Val.nan)
              (a.samples.getD (2 * i + 1) Val.nan)) 2) := by
  constructor
  · intro h
    unfold reduceToMono
    rw [if_pos (by omega)]
  · intro hch hdvd
    obtain ⟨junk, hj, hjl⟩ := rmLoop_two (a.samples.length + 1) [] [] a.samples rfl
      hdvd (by omega)
    simp only [List.length_nil, Nat.mul_zero, List.nil_append] at hj hjl
    have hcl : (pairMeans a.samples ++ junk).length = a.samples.length := by
      simp only [List.length_append, pairMeans_length, hjl]
      omega
    refine ⟨{ a with samples := pairMeans a.samples, channels := 1 }, ?_, rfl, rfl, ?_, ?_⟩
    · unfold reduceToMono
      rw [if_neg (by omega), hch, hj]
      simp only [Option.some.injEq]
      have htake : resizeList ((pairMeans a.samples ++ junk).length / 2)
          (pairMeans a.samples ++ junk) = pairMeans a.samples := by
        unfold resizeList
        rw [if_pos (by omega)]
        rw [hcl]
        exact List.take_left' (by rw [pairMeans_length])
      rw [htake]
    · simp only [pairMeans_length]
    · intro i hi
      simp only []
      rw [pairMeans_getD a.samples i hi]

/-- Witness for c6_reduceToMono at the spec's stereo scenario,
frames (1,3),(2,4),(5,7),(6,8). -/
theorem c6_reduceToMono_witness :
    ∃ a', reduceToMono (mkBuf [1, 3, 2, 4, 5, 7, 6, 8] 2 44100) = some a' ∧
      a'.channels = 1 ∧ a'.frameRate = 44100 ∧ a'.samples.length = 4 ∧
      ∀ i, i < 4 →
        a'.samples.getD i Val.nan =
          Val.divNat (Val.add
            ((mkBuf [1, 3, 2, 4, 5, 7, 6, 8] 2 44100).samples.getD (2 * i) Val.nan)
            ((mkBuf [1, 3, 2, 4, 5, 7, 6, 8] 2 44100).samples.getD (2 * i + 1) Val.nan))
            2 :=
  (c6_reduceToMono (mkBuf [1, 3, 2, 4, 5, 7, 6, 8] 2 44100)).2 rfl (by decide)

/-- C8: for n >= 1, setChannels n and setFrameRate n succeed, the matching
getter then returns n and no other field changes; for n = 0 both fail
with InvalidConfiguration and leave the buffer unchanged. -/
theorem c8_setters (a : AudioData) (n : Nat) (hn : 1 ≤ n) :
    setChannels n a = (.ok (), { a with channels := n }) ∧
    getChannels { a with channels := n } = n ∧
    setFrameRate n a = (.ok (), { a with frameRate := n }) ∧
    getFrameRate { a with frameRate := n } = n ∧
    setChannels 0 a = (.error .invalidConfiguration, a) ∧
    setFrameRate 0 a = (.error .invalidConfiguration, a) := by
  have h : ¬ n < 1 := Nat.not_lt.mpr hn
  refine ⟨?_, rfl, ?_, rfl, ?_, ?_⟩
  · simp [setChannels, h]
  · simp [setFrameRate, h]
  · simp [setChannels]
  · simp [setFrameRate]

/-- Witness for c8_setters at a concrete buffer and n = 2. -/
theorem c8_setters_witness :
    setChannels 2 AudioData.init = (.ok (), { AudioData.init with channels := 2 }) ∧
    setChannels 0 AudioData.init = (.error .invalidConfiguration, AudioData.init) :=
  ⟨(c8_setters AudioData.init 2 (by decide)).1,
   (c8_setters AudioData.init 2 (by decide)).2.2.2.2.1⟩

/-- C10: sliceSamplesFromBack on a buffer whose frameRate is 0 fails with
InvalidConfiguration (raised by setFrameRate on the new buffer) for
every n <= sampleCount, returning no new buffer and leaving the
receiver unchanged. -/
theorem c10_slice_unconfigured (a : AudioData) (n : Nat) (hr : a.frameRate = 0)
    (hn : n ≤ a.samples.length) :
    sliceSamplesFromBack n a = (.error .invalidConfiguration, a) := by
  unfold sliceSamplesFromBack
  rw [if_neg (by omega), if_pos (by omega)]

/-- Witness for c10_slice_unconfigured at a concrete buffer. -/
theorem c10_slice_unconfigured_witness :
    sliceSamplesFromBack 1 (mkBuf [1] 1 0) =
      (.error .invalidConfiguration, mkBuf [1] 1 0) :=
  c10_slice_unconfigured (mkBuf [1] 1 0) 1 (by decide) (by decide)

/-- C7: getSample and setSample fail with OutOfBounds exactly when
index >= sampleCount; setSample on an in-bounds index with a non-finite
value fails with NonFiniteValue and leaves the buffer (hence the stored
value at that index) unchanged; getSample (sampleCount - 1) succeeds on
a non-empty buffer; getSampleByFrame (frameCount, 0) fails with
OutOfBounds on a buffer with a configured channel count. -/
theorem c7_indexed_access_errors (a : AudioData) (i : Nat) (v : Val) :
    (getSample i a = .error .outOfBounds ↔ a.samples.length ≤ i) ∧
    ((setSample i v a).1 = .error .outOfBounds ↔ a.samples.length ≤ i) ∧
    (i < a.samples.length → v.isFinite = false →
      setSample i v a = (.error .nonFiniteValue, a)) ∧
    (0 < a.samples.length →
      getSample (a.samples.length - 1) a = .ok (a.samples.getD (a.samples.length - 1) Val.nan)) ∧
    (1 ≤ a.channels →
      getSampleByFrame (a.samples.length / a.channels) 0 a = .error .outOfBounds) := by
  refine ⟨?_, ?_, ?_, ?_, ?_⟩
  · unfold getSample
    by_cases h : i ≥ a.samples.length
    · simp [h]
    · simp [h]
  · unfold setSample
    by_cases h : i ≥ a.samples.length
    · simp [h]
    · by_cases hv : v.isFinite <;> simp [h, hv]
  · intro h hv
    unfold setSample
    rw [if_neg (by omega), if_pos (by simp [hv])]
  · intro h
    unfold getSample
    rw [if_neg (by omega)]
  · intro h
    unfold getSampleByFrame getFrameCount
    rw [if_neg (by omega)]
    simp

/-- Witness for c7_indexed_access_errors at a concrete buffer. -/
theorem c7_indexed_access_errors_witness :
    setSample 0 Val.nan (mkBuf [1, 2] 1 44100) =
      (.error .nonFiniteValue, mkBuf [1, 2] 1 44100) ∧
    getSample 1 (mkBuf [1, 2] 1 44100) = .ok (Val.finite 2) ∧
    getSampleByFrame 2 0 (mkBuf [1, 2] 1 44100) = .error .outOfBounds :=
  ⟨(c7_indexed_access_errors (mkBuf [1, 2] 1 44100) 0 Val.nan).2.2.1
     (by decide) (by decide),
   (c7_indexed_access_errors (mkBuf [1, 2] 1 44100) 1 Val.nan).2.2.2.1 (by decide),
   (c7_indexed_access_errors (mkBuf [1, 2] 1 44100) 1 Val.nan).2.2.2.2 (by decide)⟩

/-- C2 (code bug evaluation): on the spec's scenario — mono samples
[2,3,6,7] at frame rate 44100 — downsample(2, shortcut=false) as coded
produces samples [2, 5] (the accumulator is divided by factor at every
iteration of the averaging loop, audiodata.cpp line 175), not the
boxcar means [5/2, 13/2] the specification states; the resize and the
frame-rate update do behave as specified. -/
theorem c2_downsample_divides_every_iteration :
    downsample 2 false (mkBuf [2, 3, 6, 7] 1 44100) =
      some (.ok (), mkBuf [2, 5] 1 22050) ∧
    mkBuf [2, 5] 1 22050 ≠ mkBuf [5/2, 13/2] 1 22050 := by
  constructor
  · norm_num [mkBuf, downsample, dsLoop, dsInnerGo, Val.add, Val.divNat, resizeList,
      ceilDivNat, setFrameRate, List.getD]
  · norm_num [mkBuf]

/-- C1 counterexample: downsample(2, shortcut=false) on the mono buffer
[2,3] with frameRate 1 fails (setFrameRate(1/2) throws
InvalidConfiguration at the end) yet leaves the buffer with mutated
samples [2] — one sample instead of two — so the failed operation is
not all-or-nothing. -/
theorem c1_counterexample :
    downsample 2 false (mkBuf [2, 3] 1 1) =
      some (.error .invalidConfiguration, mkBuf [2] 1 1) ∧
    (mkBuf [2] 1 1).samples.length ≠ (mkBuf [2, 3] 1 1).samples.length := by
  constructor
  · norm_num [mkBuf, downsample, dsLoop, dsInnerGo, Val.add, Val.divNat, resizeList,
      ceilDivNat, setFrameRate, List.getD]
  · decide

/-- C1 (amended): every operation other than downsample is all-or-nothing
— any validation failure leaves the buffer exactly as it was; downsample
with factor >= 2 on a mono buffer completes fully when
frameRate >= factor, and its mono-check failure leaves the buffer
unchanged, but when frameRate < factor it fails with
InvalidConfiguration only after replacing the samples (storage resized
to ceil(sampleCount / factor) with frameRate still the original). -/
theorem c1_amended (a b : AudioData) (n i frame channel : Nat) (v : Val)
    (factor : Nat) (shortcut : Bool) :
    (∀ e a2, setChannels n a = (.error e, a2) → a2 = a) ∧
    (∀ e a2, setFrameRate n a = (.error e, a2) → a2 = a) ∧
    (∀ e a2, append b a = (.error e, a2) → a2 = a) ∧
    (∀ e a2, prepend b a = (.error e, a2) → a2 = a) ∧
    (∀ e a2, setSample i v a = (.error e, a2) → a2 = a) ∧
    (∀ e a2, setSampleByFrame frame channel v a = (.error e, a2) → a2 = a) ∧
    (∀ e a2, addToFrameCount n a = (.error e, a2) → a2 = a) ∧
    (∀ e a2, discardFramesFromFront n a = (.error e, a2) → a2 = a) ∧
    (∀ e, (sliceSamplesFromBack n a).1 = .error e → (sliceSamplesFromBack n a).2 = a) ∧
    (1 < a.channels → factor ≠ 1 →
      downsample factor shortcut a = some (.error .incompatibleChannelLayout, a)) ∧
    (2 ≤ factor → a.channels ≤ 1 → factor ≤ a.frameRate →
      ∃ a2, downsample factor shortcut a = some (.ok (), a2)) ∧
    (2 ≤ factor → a.channels ≤ 1 → a.frameRate < factor →
      ∃ a2, downsample factor shortcut a = some (.error .invalidConfiguration, a2) ∧
        a2.frameRate = a.frameRate ∧ a2.channels = a.channels ∧
        a2.samples.length = ceilDivNat a.samples.length factor) := by
  have hds : 2 ≤ factor → a.channels ≤ 1 →
      ∃ cur, dsLoop factor shortcut (a.samples.length + 1) 0 0 a.samples = some cur ∧
        cur.length = a.samples.length := by
    intro hf _
    obtain ⟨cur, hcur⟩ := Option.isSome_iff_exists.mp
      (dsLoop_isSome factor shortcut (by omega) (a.samples.length + 1) 0 0 a.samples
        (by omega))
    exact ⟨cur, hcur, dsLoop_length factor shortcut _ _ _ _ _ hcur⟩
  refine ⟨?_, ?_, ?_, ?_, ?_, ?_, ?_, ?_, ?_, ?_, ?_, ?_⟩
  · intro e a2 h
    unfold setChannels at h
    split_ifs at h <;> simp_all
  · intro e a2 h
    unfold setFrameRate at h
    split_ifs at h <;> simp_all
  · intro e a2 h
    unfold append at h
    by_cases hz : a.channels = 0 ∧ a.frameRate = 0
    · simp only [if_pos hz] at h
      simp at h
    · simp only [if_neg hz] at h
      split_ifs at h <;> simp_all
  · intro e a2 h
    unfold prepend at h
    by_cases hz : a.channels = 0 ∧ a.frameRate = 0
    · simp only [if_pos hz] at h
      simp at h
    · simp only [if_neg hz] at h
      split_ifs at h <;> simp_all
  · intro e a2 h
    unfold setSample at h
    split_ifs at h <;> simp_all
  · intro e a2 h
    unfold setSampleByFrame getFrameCount at h
    by_cases hch : a.channels < 1
    · simp only [if_pos hch] at h
      simp at h
      exact h.2.symm
    · simp only [if_neg hch] at h
      split_ifs at h with h1 h2
      · simp at h; exact h.2.symm
      · simp at h; exact h.2.symm
      · unfold setSample at h
        split_ifs at h <;> simp_all
  · intro e a2 h
    unfold addToFrameCount at h
    split_ifs at h <;> simp_all
  · intro e a2 h
    unfold discardFramesFromFront getFrameCount at h
    by_cases hch : a.channels < 1
    · simp only [if_pos hch] at h
      simp at h
      exact h.2.symm
    · simp only [if_neg hch] at h
      split_ifs at h <;> simp_all
  · intro e h
    unfold sliceSamplesFromBack at h ⊢
    split_ifs at h ⊢ <;> simp_all
  · intro hch hf
    unfold downsample
    rw [if_neg hf, if_pos hch]
  · intro hf hch hr
    obtain ⟨cur, hcur, hlen⟩ := hds hf hch
    unfold downsample
    rw [if_neg (by omega), if_neg (by omega), hcur]
    have hfr : ¬ a.frameRate / factor < 1 := by
      have : 1 ≤ a.frameRate / factor := (Nat.one_le_div_iff (by omega)).mpr hr
      omega
    simp only [setFrameRate, if_neg hfr]
    exact ⟨_, rfl⟩
  · intro hf hch hr
    obtain ⟨cur, hcur, hlen⟩ := hds hf hch
    unfold downsample
    rw [if_neg (by omega), if_neg (by omega), hcur]
    have hfr : a.frameRate / factor < 1 := by
      have : a.frameRate / factor = 0 := Nat.div_eq_of_lt hr
      omega
    simp only [setFrameRate, if_pos hfr]
    refine ⟨_, rfl, rfl, rfl, ?_⟩
    simp only [resizeList_length, hlen]

/-- Witness for c1_amended at concrete inputs: setChannels(0) fails
leaving the buffer unchanged, and downsample(2) on a mono buffer with
frameRate 4 completes. -/
theorem c1_amended_witness :
    (∀ e a2, setChannels 0 (mkBuf [1] 1 4) = (.error e, a2) → a2 = mkBuf [1] 1 4) ∧
    (∃ a2, downsample 2 true (mkBuf [1] 1 4) = some (.ok (), a2)) :=
  ⟨(c1_amended (mkBuf [1] 1 4) (mkBuf [1] 1 4) 0 0 0 0 Val.nan 2 true).1,
   (c1_amended (mkBuf [1] 1 4) (mkBuf [1] 1 4) 0 0 0 0 Val.nan 2 true).2.2.2.2.2.2.2.2.2.2.1
     (by decide) (by decide) (by decide)⟩

/-- C4 counterexample: with mono buffers A = [1] and B = [2], both at
frame rate 1, A.append(B) succeeds and then discardFramesFromFront(1)
(B's frame count) leaves A with samples [2], not its original [1]:
discarding from the front removes A's own leading samples, not the
appended ones. -/
theorem c4_counterexample :
    append (mkBuf [2] 1 1) (mkBuf [1] 1 1) = (.ok (), mkBuf [1, 2] 1 1) ∧
    getFrameCount (mkBuf [2] 1 1) = .ok 1 ∧
    discardFramesFromFront 1 (mkBuf [1, 2] 1 1) = (.ok (), mkBuf [2] 1 1) ∧
    mkBuf [2] 1 1 ≠ mkBuf [1] 1 1 := by
  refine ⟨?_, ?_, ?_, ?_⟩
  · norm_num [mkBuf, append]
  · norm_num [mkBuf, getFrameCount]
  · norm_num [mkBuf, discardFramesFromFront, getFrameCount]
  · norm_num [mkBuf]

/-- C5 counterexample: on a buffer with frameRate 0 (unconfigured) and
n = sampleCount = 1, sliceSamplesFromBack fails with
InvalidConfiguration and returns no buffer, so the claimed
slice-then-append reconstruction is impossible for that buffer even
though 0 <= n <= sampleCount. -/
theorem c5_counterexample :
    sliceSamplesFromBack 1 (mkBuf [1] 1 0) =
      (.error .invalidConfiguration, mkBuf [1] 1 0) := by
  norm_num [mkBuf, sliceSamplesFromBack]

/-- Setting within bounds then taking one past the set index splits off
the new value. -/
theorem take_set_succ (l : List Val) (i : Nat) (v : Val) (h : i < l.length) :
    (l.set i v).take (i + 1) = l.take i ++ [v] := by
  rw [List.set_eq_take_cons_drop v h, List.take_append_eq_append_take]
  simp [List.length_take, Nat.min_eq_left (Nat.le_of_lt h)]

/-- The slice copy loop overwrites dst from writeAt onwards with the
samples of src from readAt onwards, given exactly matching remaining
lengths and enough fuel. -/
theorem sliceCopyLoop_eq (src : List Val) :
    ∀ fuel readAt writeAt dst,
      src.length ≤ readAt + fuel →
      readAt ≤ src.length →
      dst.length - writeAt = src.length - readAt →
      writeAt ≤ dst.length →
      sliceCopyLoop src fuel readAt writeAt dst = dst.take writeAt ++ src.drop readAt := by
  intro fuel
  induction fuel with
  | zero =>
    intro readAt writeAt dst h1 h2 h3 h4
    have hr : readAt = src.length := by omega
    unfold sliceCopyLoop
    rw [if_neg (by omega)]
    rw [List.drop_eq_nil_of_le (by omega), List.take_of_length_le (by omega)]
    simp
  | succ t ih =>
    intro readAt writeAt dst h1 h2 h3 h4
    unfold sliceCopyLoop
    by_cases hc : readAt < src.length
    · simp only [hc, if_true]
      have hw : writeAt < dst.length := by omega
      rw [ih (readAt + 1) (writeAt + 1) _ (by omega) (by omega)
        (by simp only [List.length_set]; omega) (by simp only [List.length_set]; omega)]
      rw [take_set_succ dst writeAt _ hw]
      rw [List.drop_eq_getElem_cons hc, List.getD_eq_getElem src Val.nan hc]
      simp
    · rw [if_neg hc]
      rw [List.drop_eq_nil_of_le (by omega), List.take_of_length_le (by omega)]
      simp

/-- append on matching, configured buffers succeeds and concatenates at
the back. -/
theorem append_matching (b a : AudioData) (hch : b.channels = a.channels)
    (hfr : b.frameRate = a.frameRate) (hr : 1 ≤ a.frameRate) :
    append b a = (.ok (), { a with samples := a.samples ++ b.samples }) := by
  unfold append
  have hz : ¬ (a.channels = 0 ∧ a.frameRate = 0) := by rintro ⟨h1, h2⟩; omega
  rw [if_neg hz]
  have h1 : ¬ b.channels ≠ a.channels := by simp [hch]
  have h2 : ¬ b.frameRate ≠ a.frameRate := by simp [hfr]
  rw [if_neg h1, if_neg h2]

/-- prepend on matching, configured buffers succeeds and concatenates at
the front. -/
theorem prepend_matching (b a : AudioData) (hch : b.channels = a.channels)
    (hfr : b.frameRate = a.frameRate) (hr : 1 ≤ a.frameRate) :
    prepend b a = (.ok (), { a with samples := b.samples ++ a.samples }) := by
  unfold prepend
  have hz : ¬ (a.channels = 0 ∧ a.frameRate = 0) := by rintro ⟨h1, h2⟩; omega
  rw [if_neg hz]
  have h1 : ¬ b.channels ≠ a.channels := by simp [hch]
  have h2 : ¬ b.frameRate ≠ a.frameRate := by simp [hfr]
  rw [if_neg h1, if_neg h2]

/-- C4 (amended): for buffers A and B with equal, configured channel count
and frame rate, and B a whole number of frames, A.prepend(B) followed by
discardFramesFromFront(f) with f = B's frame count restores A exactly
(with append, discarding from the front removes A's own leading samples
instead, as the counterexample shows). -/
theorem c4_amended (A B : AudioData) (hch : B.channels = A.channels)
    (hfr : B.frameRate = A.frameRate) (hc1 : 1 ≤ A.channels) (hr1 : 1 ≤ A.frameRate)
    (hdvd : A.channels ∣ B.samples.length) :
    prepend B A = (.ok (), { A with samples := B.samples ++ A.samples }) ∧
    getFrameCount B = .ok (B.samples.length / B.channels) ∧
    discardFramesFromFront (B.samples.length / B.channels)
      { A with samples := B.samples ++ A.samples } = (.ok (), A) := by
  refine ⟨prepend_matching B A hch hfr hr1, ?_, ?_⟩
  · unfold getFrameCount
    rw [if_neg (by omega)]
  · unfold discardFramesFromFront getFrameCount
    have hc1A : ¬ A.channels < 1 := by omega
    rw [if_neg hc1A]
    simp only []
    have hle : ¬ B.samples.length / B.channels >
        (B.samples ++ A.samples).length / A.channels := by
      simp only [List.length_append, gt_iff_lt, not_lt, hch]
      exact Nat.div_le_div_right (Nat.le_add_right _ _)
    rw [if_neg hle]
    have hmul : B.samples.length / B.channels * A.channels = B.samples.length := by
      rw [hch]
      exact Nat.div_mul_cancel hdvd
    simp only [hmul, List.drop_left]

/-- Witness for c4_amended at concrete mono buffers A = [1], B = [2]. -/
theorem c4_amended_witness :
    prepend (mkBuf [2] 1 1) (mkBuf [1] 1 1) =
      (.ok (), { mkBuf [1] 1 1 with
                 samples := (mkBuf [2] 1 1).samples ++ (mkBuf [1] 1 1).samples }) ∧
    getFrameCount (mkBuf [2] 1 1) = .ok 1 ∧
    discardFramesFromFront 1
      { mkBuf [1] 1 1 with
        samples := (mkBuf [2] 1 1).samples ++ (mkBuf [1] 1 1).samples } =
      (.ok (), mkBuf [1] 1 1) :=
  c4_amended (mkBuf [1] 1 1) (mkBuf [2] 1 1) rfl rfl (by decide) (by decide)
    (by decide)

/-- C5 (amended): on a buffer with a configured (nonzero) frame rate,
sliceSamplesFromBack n (0 <= n <= sampleCount) succeeds, returning a new
buffer holding the last n samples with the same channel count and frame
rate, shrinking the receiver to the first sampleCount - n samples; and
append-ing the returned buffer back restores exactly the original
buffer (samples, channels, and frameRate unchanged). -/
theorem c5_amended (a : AudioData) (n : Nat) (hn : n ≤ a.samples.length)
    (hr : 1 ≤ a.frameRate) :
    ∃ b, sliceSamplesFromBack n a =
        (.ok b, { a with samples := a.samples.take (a.samples.length - n) }) ∧
      b.samples = a.samples.drop (a.samples.length - n) ∧
      b.channels = a.channels ∧ b.frameRate = a.frameRate ∧
      append b { a with samples := a.samples.take (a.samples.length - n) } =
        (.ok (), a) := by
  refine ⟨{ samples := a.samples.drop (a.samples.length - n), channels := a.channels,
            frameRate := a.frameRate, readIterator := 0, writeIterator := 0 },
    ?_, rfl, rfl, rfl, ?_⟩
  · unfold sliceSamplesFromBack
    rw [if_neg (by omega), if_neg (by omega)]
    have hcopy := sliceCopyLoop_eq a.samples (n + 1) (a.samples.length - n) 0
      (List.replicate n (Val.finite 0)) (by omega) (by omega)
      (by simp only [List.length_replicate]; omega) (by omega)
    simp only [List.take_zero, List.nil_append] at hcopy
    simp only [hcopy]
    unfold resizeList
    rw [if_pos (by omega)]
  · have happ := append_matching
      ⟨a.samples.drop (a.samples.length - n), a.channels, a.frameRate, 0, 0⟩
      { a with samples := a.samples.take (a.samples.length - n) } rfl rfl hr
    rw [happ]
    simp only [List.take_append_drop]

/-- Witness for c5_amended at a concrete buffer. -/
theorem c5_amended_witness :
    ∃ b, sliceSamplesFromBack 1 (mkBuf [1, 2] 1 4) =
        (.ok b, { mkBuf [1, 2] 1 4 with
                  samples := (mkBuf [1, 2] 1 4).samples.take 1 }) ∧
      b.samples = (mkBuf [1, 2] 1 4).samples.drop 1 ∧
      b.channels = 1 ∧ b.frameRate = 4 ∧
      append b { mkBuf [1, 2] 1 4 with
                 samples := (mkBuf [1, 2] 1 4).samples.take 1 } =
        (.ok (), mkBuf [1, 2] 1 4) :=
  c5_amended (mkBuf [1, 2] 1 4) 1 (by decide) (by decide)

/-- Adding finite values gives a finite value. -/
theorem Val.add_isFinite {x y : Val} (hx : x.isFinite = true) (hy : y.isFinite = true) :
    (Val.add x y).isFinite = true := by
  cases x <;> cases y <;> simp_all [Val.isFinite, Val.add]

/-- Dividing a finite value by a positive count gives a finite value. -/
theorem Val.divNat_isFinite {x : Val} {n : Nat} (hx : x.isFinite = true) (hn : 1 ≤ n) :
    (Val.divNat x n).isFinite = true := by
  obtain ⟨m, rfl⟩ : ∃ m, n = m + 1 := ⟨n - 1, by omega⟩
  cases x <;> simp_all [Val.isFinite, Val.divNat]

/-- An in-range getD read returns a member of the list. -/
theorem getD_mem {l : List Val} {i : Nat} (h : i < l.length) (d : Val) :
    l.getD i d ∈ l := by
  rw [List.getD_eq_getElem l d h]
  exact List.getElem_mem h

/-- Appends of all-finite lists are all-finite. -/
theorem allFinite_append {l₁ l₂ : List Val} (h₁ : allFinite l₁) (h₂ : allFinite l₂) :
    allFinite (l₁ ++ l₂) := by
  intro v hv
  rcases List.mem_append.mp hv with h | h
  · exact h₁ v h
  · exact h₂ v h

/-- Replicated zero fills are all-finite. -/
theorem allFinite_replicate (n : Nat) : allFinite (List.replicate n (Val.finite 0)) := by
  intro v hv
  rw [List.eq_of_mem_replicate hv]
  rfl

/-- Writing a finite value preserves all-finiteness. -/
theorem allFinite_set {l : List Val} {v : Val} (h : allFinite l)
    (hv : v.isFinite = true) (i : Nat) : allFinite (l.set i v) := by
  intro w hw
  rcases List.mem_or_eq_of_mem_set hw with h1 | h1
  · exact h w h1
  · rw [h1]; exact hv

/-- take preserves all-finiteness. -/
theorem allFinite_take {l : List Val} (h : allFinite l) (n : Nat) :
    allFinite (l.take n) :=
  fun v hv => h v (List.mem_of_mem_take hv)

/-- drop preserves all-finiteness. -/
theorem allFinite_drop {l : List Val} (h : allFinite l) (n : Nat) :
    allFinite (l.drop n) :=
  fun v hv => h v (List.mem_of_mem_drop hv)

/-- resize preserves all-finiteness (truncation or zero padding). -/
theorem allFinite_resizeList {l : List Val} (h : allFinite l) (n : Nat) :
    allFinite (resizeList n l) := by
  unfold resizeList
  split
  · exact allFinite_take h n
  · exact allFinite_append h (allFinite_replicate _)

/-- The buggy averaging accumulator stays finite on an all-finite buffer
(every division is by the positive factor). -/
theorem dsInnerGo_isFinite (factor : Nat) (cur : List Val) (hf : 1 ≤ factor)
    (hcur : allFinite cur) :
    ∀ s mean readAt, mean.isFinite = true →
      ((dsInnerGo factor cur s mean readAt).1).isFinite = true := by
  intro s
  induction s with
  | zero => intro mean readAt hm; simpa [dsInnerGo] using hm
  | succ t ih =>
    intro mean readAt hm
    unfold dsInnerGo
    by_cases h : readAt < cur.length
    · simp only [h, if_true]
      exact ih _ _ (Val.divNat_isFinite
        (Val.add_isFinite hm (hcur _ (getD_mem h Val.nan))) hf)
    · simp only [h, if_false]
      exact ih _ _ (Val.divNat_isFinite hm hf)

/-- The decimation loop preserves all-finiteness for factor >= 1. -/
theorem dsLoop_allFinite (factor : Nat) (shortcut : Bool) (hf : 1 ≤ factor) :
    ∀ fuel readAt writeAt cur out, allFinite cur →
      dsLoop factor shortcut fuel readAt writeAt cur = some out → allFinite out := by
  intro fuel
  induction fuel with
  | zero =>
    intro readAt writeAt cur out hcur h
    unfold dsLoop at h
    by_cases hc : readAt < cur.length
    · simp [hc] at h
    · simp only [hc, if_false, Option.some.injEq] at h
      rw [← h]; exact hcur
  | succ t ih =>
    intro readAt writeAt cur out hcur h
    unfold dsLoop at h
    by_cases hc : readAt < cur.length
    · simp only [hc, if_true] at h
      refine ih _ _ _ _ ?_ h
      apply allFinite_set hcur
      by_cases hs : shortcut
      · simp only [hs, if_true]
        exact hcur _ (getD_mem hc Val.nan)
      · simp only [hs, if_false]
        exact dsInnerGo_isFinite factor cur hf hcur factor (Val.finite 0) readAt rfl
    · simp only [hc, if_false, Option.some.injEq] at h
      rw [← h]; exact hcur

/-- The reduceToMono inner loop advances the read position by exactly the
channel count. -/
theorem rmInner_snd (cur : List Val) :
    ∀ c sum readAt, (rmInner cur c sum readAt).2 = readAt + c := by
  intro c
  induction c with
  | zero => intro sum readAt; simp [rmInner]
  | succ t ih =>
    intro sum readAt
    unfold rmInner
    rw [ih]
    omega

/-- The reduceToMono frame sum is finite when the whole frame is in
range on an all-finite buffer. -/
theorem rmInner_isFinite (cur : List Val) (hcur : allFinite cur) :
    ∀ c sum readAt, sum.isFinite = true → readAt + c ≤ cur.length →
      ((rmInner cur c sum readAt).1).isFinite = true := by
  intro c
  induction c with
  | zero => intro sum readAt hs _; simpa [rmInner] using hs
  | succ t ih =>
    intro sum readAt hs hle
    unfold rmInner
    exact ih _ _ (Val.add_isFinite hs (hcur _ (getD_mem (by omega) Val.nan))) (by omega)

/-- The reduceToMono loop preserves all-finiteness on whole-frame
buffers. -/
theorem rmLoop_allFinite (c : Nat) (hc : 2 ≤ c) :
    ∀ fuel readAt writeAt cur out, allFinite cur → c ∣ cur.length → c ∣ readAt →
      rmLoop c fuel readAt writeAt cur = some out → allFinite out := by
  intro fuel
  induction fuel with
  | zero =>
    intro readAt writeAt cur out hcur hdl hdr h
    unfold rmLoop at h
    by_cases hlt : readAt < cur.length
    · simp [hlt] at h
    · simp only [hlt, if_false, Option.some.injEq] at h
      rw [← h]; exact hcur
  | succ t ih =>
    intro readAt writeAt cur out hcur hdl hdr h
    unfold rmLoop at h
    by_cases hlt : readAt < cur.length
    · simp only [hlt, if_true] at h
      have hin : readAt + c ≤ cur.length := by
        obtain ⟨k, hk⟩ := hdr
        obtain ⟨m, hm⟩ := hdl
        have hkm : k + 1 ≤ m := by
          rcases Nat.lt_or_ge k m with h1 | h1
          · exact h1
          · have h2 := Nat.mul_le_mul_left c h1
            omega
        have h2 := Nat.mul_le_mul_left c hkm
        have h3 : c * (k + 1) = c * k + c := by ring
        omega
      rw [rmInner_snd] at h
      refine ih _ _ _ _ ?_ ?_ ?_ h
      · exact allFinite_set hcur
          (Val.divNat_isFinite
            (rmInner_isFinite cur hcur c (Val.finite 0) readAt rfl hin) (by omega)) _
      · simpa using hdl
      · exact Dvd.dvd.add hdr (dvd_refl c)
    · simp only [hlt, if_false, Option.some.injEq] at h
      rw [← h]; exact hcur

/-- C3 counterexample: the state with samples [NaN] is reachable through
the public API (grow by one zero sample, then write NaN through the
unchecked streaming-cursor write setSampleAtWriteIterator, which
performs no finiteness check), so not every reachable buffer state has
all-finite samples. -/
theorem c3_counterexample :
    Reach { samples := [Val.nan], channels := 0, frameRate := 0,
            readIterator := 0, writeIterator := 0 } ∧
    ¬ allFinite [Val.nan] := by
  constructor
  · have h : setSampleAtWriteIterator Val.nan (addToSampleCount 1 AudioData.init) =
        { samples := [Val.nan], channels := 0, frameRate := 0,
          readIterator := 0, writeIterator := 0 } := by decide
    exact h ▸ Reach.ofSetAtWrite Val.nan (Reach.ofAddToSampleCount 1 Reach.init)
  · intro h
    exact absurd (h Val.nan (by decide)) (by decide)

/-- Buffers built from rational literals are all-finite. -/
theorem allFinite_mkBuf (l : List ℚ) (c r : Nat) : allFinite (mkBuf l c r).samples := by
  intro v hv
  simp only [mkBuf] at hv
  obtain ⟨q, _, rfl⟩ := List.mem_map.mp hv
  rfl

/-- A list containing NaN is not all-finite. -/
theorem not_allFinite_nan : ¬ allFinite [Val.nan] := by
  intro h
  have := h Val.nan (by simp)
  simp [Val.isFinite] at this

/-- C3 (amended): all checked write paths preserve the all-finite
invariant — setSample and setSampleByFrame (rejecting non-finite
values), zero-fill growth, merge copies, front trim, tail slice (both
the shrunk receiver and the returned buffer), and the transforms
reduceToMono (on whole-frame input) and downsample (factor >= 1) — but
setSampleAtWriteIterator performs no finiteness check and stores NaN
verbatim, so the invariant is not enforced at that write path. -/
theorem c3_amended (a b : AudioData) (n i frame channel : Nat) (v : Val)
    (factor : Nat) (shortcut : Bool)
    (ha : allFinite a.samples) (hb : allFinite b.samples) :
    allFinite ((setSample i v a).2).samples ∧
    allFinite ((setSampleByFrame frame channel v a).2).samples ∧
    allFinite (addToSampleCount n a).samples ∧
    allFinite ((addToFrameCount n a).2).samples ∧
    allFinite ((append b a).2).samples ∧
    allFinite ((prepend b a).2).samples ∧
    allFinite ((discardFramesFromFront n a).2).samples ∧
    allFinite ((sliceSamplesFromBack n a).2).samples ∧
    (∀ bu, (sliceSamplesFromBack n a).1 = .ok bu → allFinite bu.samples) ∧
    (a.channels ∣ a.samples.length →
      ∀ a2, reduceToMono a = some a2 → allFinite a2.samples) ∧
    (1 ≤ factor →
      ∀ r, downsample factor shortcut a = some r → allFinite r.2.samples) ∧
    setSampleAtWriteIterator Val.nan (mkBuf [0] 1 1) =
      { samples := [Val.nan], channels := 1, frameRate := 1,
        readIterator := 0, writeIterator := 0 } ∧
    ¬ allFinite [Val.nan] := by
  have hgrow : allFinite (addToSampleCount n a).samples :=
    allFinite_append ha (allFinite_replicate n)
  have hsetAll : ∀ j, allFinite ((setSample j v a).2).samples := by
    intro j
    unfold setSample
    split_ifs with h1 h2
    · exact ha
    · exact allFinite_set ha h2 j
    · exact ha
  refine ⟨hsetAll i, ?_, hgrow, ?_, ?_, ?_, ?_, ?_, ?_, ?_, ?_, by decide,
    not_allFinite_nan⟩
  · unfold setSampleByFrame getFrameCount
    by_cases hch : a.channels < 1
    · rw [if_pos hch]
      exact ha
    · rw [if_neg hch]
      simp only []
      split_ifs with h1 h2
      · exact ha
      · exact ha
      · exact hsetAll _
  · unfold addToFrameCount
    split_ifs with h1
    · exact ha
    · exact allFinite_append ha (allFinite_replicate _)
  · simp only [append]
    by_cases hz : a.channels = 0 ∧ a.frameRate = 0
    · rw [if_pos hz]
      split_ifs
      · exact ha
      · exact ha
      · exact allFinite_append ha hb
    · rw [if_neg hz]
      split_ifs
      · exact ha
      · exact ha
      · exact allFinite_append ha hb
  · simp only [prepend]
    by_cases hz : a.channels = 0 ∧ a.frameRate = 0
    · rw [if_pos hz]
      split_ifs
      · exact ha
      · exact ha
      · exact allFinite_append hb ha
    · rw [if_neg hz]
      split_ifs
      · exact ha
      · exact ha
      · exact allFinite_append hb ha
  · unfold discardFramesFromFront getFrameCount
    by_cases hch : a.channels < 1
    · rw [if_pos hch]
      exact ha
    · rw [if_neg hch]
      simp only []
      split_ifs with h1
      · exact ha
      · exact allFinite_drop ha _
  · unfold sliceSamplesFromBack
    split_ifs with h1 h2
    · exact ha
    · exact ha
    · exact allFinite_resizeList ha _
  · intro bu hbu
    unfold sliceSamplesFromBack at hbu
    split_ifs at hbu with h1 h2
    have hcopy := sliceCopyLoop_eq a.samples (n + 1)
      (a.samples.length - n) 0 (List.replicate n (Val.finite 0)) (by omega) (by omega)
      (by simp only [List.length_replicate]; omega) (by omega)
    simp only [List.take_zero, List.nil_append] at hcopy
    simp only [Except.ok.injEq, hcopy] at hbu
    rw [← hbu]
    exact allFinite_drop ha _
  · intro hdvd a2 h
    unfold reduceToMono at h
    by_cases hch : a.channels < 2
    · rw [if_pos hch] at h
      simp only [Option.some.injEq] at h
      rw [← h]
      exact ha
    · rw [if_neg hch] at h
      rcases hcur : rmLoop a.channels (a.samples.length + 1) 0 0 a.samples with _ | cur
      · rw [hcur] at h
        simp at h
      · rw [hcur] at h
        simp only [Option.some.injEq] at h
        rw [← h]
        exact allFinite_resizeList
          (rmLoop_allFinite a.channels (by omega) _ _ _ _ _ ha hdvd (dvd_zero _) hcur) _
  · intro hf r h
    unfold downsample at h
    by_cases h1 : factor = 1
    · rw [if_pos h1] at h
      simp only [Option.some.injEq] at h
      rw [← h]
      exact ha
    · rw [if_neg h1] at h
      by_cases h2 : a.channels > 1
      · rw [if_pos h2] at h
        simp only [Option.some.injEq] at h
        rw [← h]
        exact ha
      · rw [if_neg h2] at h
        rcases hcur : dsLoop factor shortcut (a.samples.length + 1) 0 0 a.samples
          with _ | cur
        · rw [hcur] at h
          simp at h
        · rw [hcur] at h
          simp only [Option.some.injEq] at h
          have hfin : allFinite (resizeList (ceilDivNat cur.length factor) cur) :=
            allFinite_resizeList
              (dsLoop_allFinite factor shortcut hf _ _ _ _ _ ha hcur) _
          rw [← h]
          unfold setFrameRate
          split_ifs
          · exact hfin
          · exact hfin

/-- Witness for c3_amended at a concrete buffer: the checked write path
rejects NaN keeping the buffer all-finite, while the unchecked cursor
write stores NaN. -/
theorem c3_amended_witness :
    allFinite ((setSample 0 Val.nan (mkBuf [1] 1 1)).2).samples ∧
    setSampleAtWriteIterator Val.nan (mkBuf [0] 1 1) =
      { samples := [Val.nan], channels := 1, frameRate := 1,
        readIterator := 0, writeIterator := 0 } :=
  ⟨(c3_amended (mkBuf [1] 1 1) (mkBuf [1] 1 1) 0 0 0 0 Val.nan 1 true
      (allFinite_mkBuf [1] 1 1) (allFinite_mkBuf [1] 1 1)).1,
   (c3_amended (mkBuf [1] 1 1) (mkBuf [1] 1 1) 0 0 0 0 Val.nan 1 true
      (allFinite_mkBuf [1] 1 1) (allFinite_mkBuf [1] 1 1)).2.2.2.2.2.2.2.2.2.2.2.1⟩

end KeyFinder
